import Mathlib

/-!
Verification of the dynarmic dynamic binary translator core against its
natural-language specification.  The definitions below are shallow embeddings
of the program's source: machine registers are modelled as `Nat` bit patterns
(with explicit `% 2^w` where the hardware wraps) or as the signed integers
they represent, and each emitter routine is translated into the function
computed by the host instruction sequence it emits.  Definitions come first,
then the theorems settling the claims.
-/

namespace Dynarmic


/-!
Verification of the dynarmic dynamic binary translator core against its
natural-language specification.  The definitions below are shallow embeddings
of the program's source: machine registers are modelled as `Nat` bit patterns
(with explicit `% 2^w` where the hardware wraps) or as the signed integers
they represent, and each emitter routine is translated into the function
computed by the host instruction sequence it emits.
-/
/-! ## Two's complement basics -/
/-- Interpretation of a `w`-bit pattern as a signed integer. -/
def toSInt (w : Nat) (x : Nat) : Int :=
  if x < 2 ^ (w - 1) then (x : Int) else (x : Int) - 2 ^ w

/-- Sign bit of a `w`-bit pattern (the `bt reg, w-1` test in the emitter). -/
def sgnBit (w : Nat) (x : Nat) : Bool :=
  Nat.testBit x (w - 1)

/-- Wrapping addition of two `w`-bit patterns (host `add` at width `w`). -/
def wrapAdd (w a b : Nat) : Nat :=
  (a + b) % 2 ^ w

/-- Wrapping subtraction of two `w`-bit patterns (host `sub` at width `w`). -/
def wrapSub (w a b : Nat) : Nat :=
  (a + (2 ^ w - b)) % 2 ^ w

/-- The x86 overflow flag produced by `add` at width `w`: set when the operands
have equal sign bits and the wrapped result's sign bit differs. -/
def addOF (w a b : Nat) : Bool :=
  (sgnBit w a == sgnBit w b) && (sgnBit w (wrapAdd w a b) != sgnBit w a)

/-- The x86 overflow flag produced by `sub` at width `w`: set when the operands
have different sign bits and the wrapped result's sign bit differs from the
minuend's. -/
def subOF (w a b : Nat) : Bool :=
  (sgnBit w a != sgnBit w b) && (sgnBit w (wrapSub w a b) != sgnBit w a)

/-- Clamp a signed integer to the bounds of a `w`-bit signed integer type. -/
def satClampS (w : Nat) (s : Int) : Int :=
  max (-(2 ^ (w - 1))) (min s (2 ^ (w - 1) - 1))

/-- Clamp an integer to the bounds of a `w`-bit unsigned integer type. -/
def satClampU (w : Nat) (s : Int) : Int :=
  max 0 (min s (2 ^ w - 1))

/-! ## Saturating add/sub (backend/x64/emit_x64_saturation.cpp)

`EmitSignedSaturatedOp<op, size>` emits:
```
xor overflow, overflow ; bt result, size-1 ; adc overflow, int_max
add/sub result, addend
cmovo result, overflow
seto overflow  (when the GetOverflowFromOp pseudo-operation exists)
```
so `overflow` holds `int_max + sign_bit(a)` (`0x7F...` for non-negative `a`,
`0x80...` for negative `a`), the result register wraps, and the overflow
flag selects the saturated value. -/
inductive SatOp
  | add
  | sub
deriving DecidableEq

/-- Function computed by the code emitted by `EmitSignedSaturatedOp<op, size>`
on register contents `a`, `b` (bit patterns of width `size`); returns the
result pattern and the value of the `GetOverflowFromOp` pseudo-operation. -/
def EmitSignedSaturatedOp (op : SatOp) (size : Nat) (a b : Nat) : Nat × Bool :=
  let int_max : Nat := 2 ^ (size - 1) - 1
  let overflow : Nat := int_max + (if sgnBit size a then 1 else 0)
  let result : Nat :=
    match op with
    | .add => wrapAdd size a b
    | .sub => wrapSub size a b
  let of : Bool :=
    match op with
    | .add => addOF size a b
    | .sub => subOF size a b
  (if of then overflow else result, of)

/-- Function computed by the code emitted by `EmitUnsignedSaturatedOp<op, size>`:
```
add/sub op_result, addend ; mov addend, boundary ; cmovae addend, op_result
setb overflow
```
Result is the `addend` register; the carry flag selects the boundary. -/
def EmitUnsignedSaturatedOp (op : SatOp) (size : Nat) (a b : Nat) : Nat × Bool :=
  let op_result : Nat :=
    match op with
    | .add => wrapAdd size a b
    | .sub => wrapSub size a b
  let cf : Bool :=
    match op with
    | .add => decide (2 ^ size ≤ a + b)
    | .sub => decide (a < b)
  let boundary : Nat :=
    match op with
    | .add => 2 ^ size - 1
    | .sub => 0
  (if cf then boundary else op_result, cf)

def SignedSaturatedAdd8 (a b : Nat) : Nat × Bool := EmitSignedSaturatedOp .add 8 a b

def SignedSaturatedAdd16 (a b : Nat) : Nat × Bool := EmitSignedSaturatedOp .add 16 a b

def SignedSaturatedAdd32 (a b : Nat) : Nat × Bool := EmitSignedSaturatedOp .add 32 a b

def SignedSaturatedAdd64 (a b : Nat) : Nat × Bool := EmitSignedSaturatedOp .add 64 a b

def SignedSaturatedSub8 (a b : Nat) : Nat × Bool := EmitSignedSaturatedOp .sub 8 a b

def SignedSaturatedSub16 (a b : Nat) : Nat × Bool := EmitSignedSaturatedOp .sub 16 a b

def SignedSaturatedSub32 (a b : Nat) : Nat × Bool := EmitSignedSaturatedOp .sub 32 a b

def SignedSaturatedSub64 (a b : Nat) : Nat × Bool := EmitSignedSaturatedOp .sub 64 a b

def UnsignedSaturatedAdd8 (a b : Nat) : Nat × Bool := EmitUnsignedSaturatedOp .add 8 a b

def UnsignedSaturatedAdd16 (a b : Nat) : Nat × Bool := EmitUnsignedSaturatedOp .add 16 a b

def UnsignedSaturatedAdd32 (a b : Nat) : Nat × Bool := EmitUnsignedSaturatedOp .add 32 a b

def UnsignedSaturatedAdd64 (a b : Nat) : Nat × Bool := EmitUnsignedSaturatedOp .add 64 a b

def UnsignedSaturatedSub8 (a b : Nat) : Nat × Bool := EmitUnsignedSaturatedOp .sub 8 a b

def UnsignedSaturatedSub16 (a b : Nat) : Nat × Bool := EmitUnsignedSaturatedOp .sub 16 a b

def UnsignedSaturatedSub32 (a b : Nat) : Nat × Bool := EmitUnsignedSaturatedOp .sub 32 a b

def UnsignedSaturatedSub64 (a b : Nat) : Nat × Bool := EmitUnsignedSaturatedOp .sub 64 a b

/-! ## Arbitrary-width saturation (EmitX64::EmitSignedSaturation /
EmitX64::EmitUnsignedSaturation)

For `N = 32` the signed form defines the result to be the input and replaces
the `GetOverflowFromOp` pseudo-operation with the constant `false`.
Otherwise the emitted code is
```
lea overflow, [reg_a + negative_saturated_value]
mov result, reg_a ; sar result, 31 ; xor result, positive_saturated_value
cmp overflow, mask ; cmovbe result, reg_a
seta overflow
```
and the unsigned form is
```
xor overflow, overflow ; cmp reg_a, saturated_value
mov result, saturated_value ; cmovle result, overflow ; cmovbe result, reg_a
seta overflow
``` -/
/-- Function computed by `EmitX64::EmitSignedSaturation` on a 32-bit register
pattern `a` with immediate `N` (the source asserts `1 ≤ N ≤ 32`). -/
def EmitSignedSaturation (a N : Nat) : Nat × Bool :=
  if N = 32 then (a, false)
  else
    let mask : Nat := 2 ^ N - 1
    let positive_saturated_value : Nat := 2 ^ (N - 1) - 1
    let negative_saturated_value : Nat := 2 ^ (N - 1)
    let overflow : Nat := (a + negative_saturated_value) % 2 ^ 32
    let sar31 : Nat := if sgnBit 32 a then 2 ^ 32 - 1 else 0
    let result0 : Nat := sar31 ^^^ positive_saturated_value
    let result : Nat := if overflow ≤ mask then a else result0
    (result, decide (mask < overflow))

/-- Function computed by `EmitX64::EmitUnsignedSaturation` on a 32-bit register
pattern `a` with immediate `N` (the source asserts `N ≤ 31`); `cmovle` tests
the signed comparison of `a` against the saturated value, `cmovbe` and `seta`
the unsigned one. -/
def EmitUnsignedSaturation (a N : Nat) : Nat × Bool :=
  let saturated_value : Nat := 2 ^ N - 1
  let result0 : Nat := saturated_value
  let result1 : Nat := if toSInt 32 a ≤ (saturated_value : Int) then 0 else result0
  let result : Nat := if a ≤ saturated_value then a else result1
  (result, decide (saturated_value < a))

/-! ## Decoder matcher engine (decoder_detail / matcher header) -/
/-- A decode-table entry: human-readable name, bit mask, expected value after
masking, and an abstract handler reference (instruction words are modelled
as `Nat` bit patterns). -/
structure Matcher where
  name : String
  mask : Nat
  expected : Nat
  handler : Nat
deriving DecidableEq

/-- Source `Matcher::Matches`: tests whether the given instruction word is matched,
via `(instruction & mask) == expected`. -/
def Matcher.Matches (m : Matcher) (instruction : Nat) : Bool :=
  (instruction &&& m.mask) == m.expected

/-- Modelled from the spec: the decoder searches the declarative table in
declaration order and returns the first matcher whose `Matches` holds (the
table-search `Decode` functions of the frontends are not part of the source
sample; only the `Matcher` class is). -/
def DecodeTable (table : List Matcher) (instruction : Nat) : Option Matcher :=
  table.find? (fun m => m.Matches instruction)

/-! ## Fastmem demotion (backend/A64/a32_emit_a64.cpp)

`ShouldFastmem` tests `config.fastmem_pointer && exception_handler.SupportsFastmem()
&& do_not_fastmem.count(marker) == 0`; `DoNotFastmem` inserts the marker into
`do_not_fastmem` and invalidates the containing block.  No operation of the
emitter ever removes markers from `do_not_fastmem` (in particular
`A32EmitA64::ClearCache` clears `fastmem_patch_info` and the fast-dispatch
table but not `do_not_fastmem`). -/
/-- A `DoNotFastmemMarker` is the pair of the block's `LocationDescriptor`
and the instruction's offset inside the block (`GenerateDoNotFastmemMarker`). -/
def DoNotFastmemMarker : Type := Nat × Nat

deriving instance DecidableEq for DoNotFastmemMarker

/-- Mutable state of `A32EmitA64` relevant to fastmem demotion. -/
structure A32EmitterState where
  fastmem_pointer : Bool
  supports_fastmem : Bool
  do_not_fastmem : List DoNotFastmemMarker
  fastmem_patch_info : List Nat
  valid_blocks : List Nat

/-- Source `A32EmitA64::ShouldFastmem`. -/
def ShouldFastmem (s : A32EmitterState) (marker : DoNotFastmemMarker) : Bool :=
  s.fastmem_pointer && s.supports_fastmem && !(s.do_not_fastmem.contains marker)

/-- Source `A32EmitA64::DoNotFastmem`: record the marker and invalidate the block. -/
def DoNotFastmem (s : A32EmitterState) (marker : DoNotFastmemMarker) : A32EmitterState :=
  { s with
    do_not_fastmem := marker :: s.do_not_fastmem
    valid_blocks := s.valid_blocks.filter (fun d => d ≠ marker.1) }

/-- The code path `A32EmitA64::ReadMemory` emits at a patch site. -/
inductive MemoryAccessPath
  | fastmem
  | pageTable
  | callback
deriving DecidableEq

/-- Which code path `A32EmitA64::ReadMemory` (and `WriteMemory`) emits for the
given marker: the fastmem form when `ShouldFastmem`, otherwise the page-table
walk when a page table is configured, otherwise the memory callback. -/
def ReadMemoryEmittedPath (s : A32EmitterState) (page_table : Bool)
    (marker : DoNotFastmemMarker) : MemoryAccessPath :=
  if ShouldFastmem s marker then .fastmem
  else if page_table then .pageTable
  else .callback

/-- Operations of the emitter that can run after a demotion: compiling blocks,
invalidating ranges, clearing the cache, the fastmem signal-handler callback
demoting some (other or same) site, registering blocks. -/
inductive EmitterEvent
  | doNotFastmem (marker : DoNotFastmemMarker)
  | clearCache
  | invalidateRanges (descs : List Nat)
  | registerBlock (desc : Nat)

/-- State transition of `A32EmitA64` for each event; `clearCache` mirrors
`A32EmitA64::ClearCache`, which clears `fastmem_patch_info` but leaves
`do_not_fastmem` intact. -/
def emitterStep (s : A32EmitterState) (e : EmitterEvent) : A32EmitterState :=
  match e with
  | .doNotFastmem marker => DoNotFastmem s marker
  | .clearCache =>
      { s with fastmem_patch_info := [], valid_blocks := [] }
  | .invalidateRanges descs =>
      { s with valid_blocks := s.valid_blocks.filter (fun d => !(descs.contains d)) }
  | .registerBlock desc =>
      { s with valid_blocks := desc :: s.valid_blocks }

def emitterRun (s : A32EmitterState) (es : List EmitterEvent) : A32EmitterState :=
  es.foldl emitterStep s

/-! ## LinkBlock terminal lowering (A32EmitA64::EmitTerminalImpl / EmitPatchJg)

The emitted A64 code is modelled as a list of abstract operations for the
near-code section and one for the far-code section, translated one for one
from the `code.*` calls the emitter makes; `long_branch_gt` in `EmitPatchJg`
emits either a single `B.GT ptr` or an inverted branch around an
unconditional `B ptr`, both of which branch to `ptr` exactly when the
condition holds, so it is modelled as a single conditional branch. -/
inductive BranchTarget
  | blockEntry (entry : Nat)
  | dispatcherReturn
  | farCode
deriving DecidableEq

inductive A64TermOp
  | storeUpperLocationDescriptor (v : Nat)
  | cmpCyclesRemaining
  | branchGT (t : BranchTarget)
  | branch (t : BranchTarget)
  | storePC (pc : Nat)
  | pushRSB (desc : Nat)
  | returnFromRunCode
  | forceReturnFromRunCode
deriving DecidableEq

/-- Source `A32EmitA64::EmitSetUpperLocationDescriptor`: stores the new upper
location descriptor only when it differs from the old one. -/
def EmitSetUpperLocationDescriptor (old_upper new_upper : Nat) : List A64TermOp :=
  if old_upper ≠ new_upper then [.storeUpperLocationDescriptor new_upper] else []

/-- Source `A32EmitA64::EmitPatchJg`: with a compiled target, a conditional branch to
its entrypoint; otherwise materialize the target PC and conditionally branch
to the dispatcher's return address. -/
def EmitPatchJg (targetPC : Nat) (target_code_ptr : Option Nat) : List A64TermOp :=
  match target_code_ptr with
  | some ptr => [.branchGT (.blockEntry ptr)]
  | none => [.storePC targetPC, .branchGT .dispatcherReturn]

/-- Source `A32EmitA64::EmitTerminalImpl(IR::Term::LinkBlock)`: returns the pair
(near code, far code).  Without optimizations or when single-stepping it
stores the PC and returns; otherwise it compares the remaining-cycles
register, emits the patchable `jg` site, and places the RSB push and forced
return on the far path. -/
def EmitTerminalLinkBlock (enable_optimizations is_single_step : Bool)
    (old_upper new_upper nextPC next_desc : Nat) (next_bb : Option Nat) :
    List A64TermOp × List A64TermOp :=
  let pre := EmitSetUpperLocationDescriptor old_upper new_upper
  if !enable_optimizations || is_single_step then
    (pre ++ [.storePC nextPC, .returnFromRunCode], [])
  else
    (pre ++ [.cmpCyclesRemaining] ++ EmitPatchJg nextPC next_bb ++ [.branch .farCode],
     [.storePC nextPC, .pushRSB next_desc, .forceReturnFromRunCode])

/-- Machine state visible to a terminal: the remaining-cycles register `X26`,
the comparison flag consumed by `B.GT`, and the jit-state fields written by
the terminal (guest PC, upper location descriptor, RSB contents). -/
structure TermState where
  cycles_remaining : Int
  flag_gt : Bool
  pc : Nat
  upper_loc : Nat
  rsb : List Nat
deriving DecidableEq

inductive TermOutcome
  | jumpedTo (entry : Nat)
  | returnedToDispatcher
  | forcedReturnToDispatcher
  | fellThrough
  | wentToFarCode
deriving DecidableEq

def branchOutcome (s : TermState) (t : BranchTarget) : TermState × TermOutcome :=
  match t with
  | .blockEntry e => (s, .jumpedTo e)
  | .dispatcherReturn => (s, .returnedToDispatcher)
  | .farCode => (s, .wentToFarCode)

/-- Execution of a straight-line op sequence with A64 branch semantics. -/
def execOps : List A64TermOp → TermState → TermState × TermOutcome
  | [], s => (s, .fellThrough)
  | op :: rest, s =>
    match op with
    | .storeUpperLocationDescriptor v => execOps rest { s with upper_loc := v }
    | .cmpCyclesRemaining =>
        execOps rest { s with flag_gt := decide (0 < s.cycles_remaining) }
    | .branchGT t => if s.flag_gt then branchOutcome s t else execOps rest s
    | .branch t => branchOutcome s t
    | .storePC p => execOps rest { s with pc := p }
    | .pushRSB d => execOps rest { s with rsb := d :: s.rsb }
    | .returnFromRunCode => (s, .returnedToDispatcher)
    | .forceReturnFromRunCode => (s, .forcedReturnToDispatcher)

/-- Execute the near section; a branch into the far section continues there. -/
def execLinkBlock (code : List A64TermOp × List A64TermOp) (s : TermState) :
    TermState × TermOutcome :=
  match execOps code.1 s with
  | (s1, .wentToFarCode) => execOps code.2 s1
  | r => r

/-! ## AES lowering (backend/x64/emit_x64_aes.cpp)

`EmitAESInverseMixColumns` lowers to the single host instruction `aesimc`
when the host has AES-NI, and otherwise trampolines through
`EmitAESFunction`, which reserves `2 * sizeof(AES::State)` bytes of stack
above the ABI shadow area, stores the 128-bit input to the second slot,
calls the scalar routine with pointers to the two slots, and reloads the
result from the first slot. -/
/-- The 128-bit AES state as 16 bytes. -/
def AESState : Type := Fin 16 → Nat

/-- Byte access with wraparound indexing (indices are always in range where
this is used). -/
def aesByte (st : AESState) (n : Nat) : Nat :=
  st ⟨n % 16, Nat.mod_lt _ (by omega)⟩

/-- Multiplication by x in GF(2^8) modulo the AES polynomial 0x11B. -/
def xtime (b : Nat) : Nat :=
  if 128 ≤ b then ((2 * b) ^^^ 27) % 256 else (2 * b) % 256

def gmul2 (b : Nat) : Nat := xtime b

def gmul4 (b : Nat) : Nat := xtime (xtime b)

def gmul8 (b : Nat) : Nat := xtime (gmul4 b)

def gmul9 (b : Nat) : Nat := gmul8 b ^^^ b

def gmul11 (b : Nat) : Nat := gmul8 b ^^^ gmul2 b ^^^ b

def gmul13 (b : Nat) : Nat := gmul8 b ^^^ gmul4 b ^^^ b

def gmul14 (b : Nat) : Nat := gmul8 b ^^^ gmul4 b ^^^ gmul2 b

/-- The AES InverseMixColumns transformation on a column-major 16-byte state:
each output byte is the GF(2^8) combination of its column with the inverse
MDS matrix (14 11 13 9). -/
def InverseMixColumnsRef (st : AESState) : AESState := fun i =>
  let c := (i : Nat) / 4
  let a0 := aesByte st (4 * c)
  let a1 := aesByte st (4 * c + 1)
  let a2 := aesByte st (4 * c + 2)
  let a3 := aesByte st (4 * c + 3)
  match (i : Nat) % 4 with
  | 0 => gmul14 a0 ^^^ gmul11 a1 ^^^ gmul13 a2 ^^^ gmul9 a3
  | 1 => gmul9 a0 ^^^ gmul14 a1 ^^^ gmul11 a2 ^^^ gmul13 a3
  | 2 => gmul13 a0 ^^^ gmul9 a1 ^^^ gmul14 a2 ^^^ gmul11 a3
  | _ => gmul11 a0 ^^^ gmul13 a1 ^^^ gmul9 a2 ^^^ gmul14 a3

/-- Modelled from the spec: the semantics of the host `aesimc` instruction,
which computes the AES InverseMixColumns function of its 128-bit operand
(the host instruction itself is outside this repository). -/
def aesimc (st : AESState) : AESState := InverseMixColumnsRef st

/-- Modelled from the spec: the external scalar software routine
`AES::InverseMixColumns` (`common/crypto/aes` is an external collaborator
not in the source sample); per the spec it computes the same AES
InverseMixColumns function of the 128-bit state. -/
def AES_InverseMixColumns (st : AESState) : AESState := InverseMixColumnsRef st

/-- Write a 16-byte state into byte-addressed memory at `addr`
(`movaps [reg], xmm`). -/
def writeAES (mem : Nat → Nat) (addr : Nat) (st : AESState) : Nat → Nat :=
  fun j => if h : addr ≤ j ∧ j < addr + 16 then st ⟨j - addr, by omega⟩ else mem j

/-- Read a 16-byte state from byte-addressed memory at `addr`
(`movaps xmm, [reg]`). -/
def readAES (mem : Nat → Nat) (addr : Nat) : AESState :=
  fun i => mem (addr + i)

/-- Source `EmitAESFunction`: store the input state to the second stack slot (at
`rsp + ABI_SHADOW_SPACE + sizeof(AES::State)`), call `fn(out, in)` on the two
slots, and reload the result from the first slot (at
`rsp + ABI_SHADOW_SPACE`); `shadow` is the platform's `ABI_SHADOW_SPACE`. -/
def EmitAESFunction (shadow : Nat) (fn : AESState → AESState) (mem : Nat → Nat)
    (input : AESState) : AESState :=
  let mem1 := writeAES mem (shadow + 16) input
  let result := fn (readAES mem1 (shadow + 16))
  let mem2 := writeAES mem1 shadow result
  readAES mem2 shadow

/-- Source `EmitX64::EmitAESInverseMixColumns`: single `aesimc` with AES-NI,
otherwise the `EmitAESFunction` trampoline to the software routine. -/
def EmitAESInverseMixColumns (hasAESNI : Bool) (shadow : Nat) (mem : Nat → Nat)
    (input : AESState) : AESState :=
  if hasAESNI then aesimc input
  else EmitAESFunction shadow AES_InverseMixColumns mem input

/-! ## Exclusive monitor (include/dynarmic/A64/exclusive_monitor.h)

All monitor operations are serialized by the `is_locked` spinlock, so a
concurrent execution is a sequence of atomic events; the system below is
that trace semantics.  `ReadAndMark` and `DoExclusiveOperation` are embedded
from the header; `CheckAndClear` is only declared there, so its body is
modelled from the spec. -/
def RESERVATION_GRANULE_MASK : Nat := 0xFFFFFFFFFFFFFFFF

def INVALID_EXCLUSIVE_ADDRESS : Nat := 0xDEADDEADDEADDEAD

/-- Monitor state: per processor id, the masked reservation address and the
saved exclusive value. -/
structure Monitor where
  exclusive_addresses : Nat → Nat
  exclusive_values : Nat → Nat

/-- Source `ExclusiveMonitor::ReadAndMark`: under the lock, record the masked
address as `processor_id`'s reservation, perform the read, and save the
value read. -/
def ReadAndMark (mon : Monitor) (mem : Nat → Nat) (processor_id address : Nat) :
    Monitor × Nat :=
  let masked_address := address &&& RESERVATION_GRANULE_MASK
  let value := mem address
  ({ exclusive_addresses := fun q =>
       if q = processor_id then masked_address else mon.exclusive_addresses q,
     exclusive_values := fun q =>
       if q = processor_id then value else mon.exclusive_values q },
   value)

/-- Modelled from the spec: `ExclusiveMonitor::CheckAndClear` (declared in the
header, body not in the source sample).  Per the header's documentation it
checks whether `processor_id` has exclusive access to the region and, if so,
clears the exclusive state of every processor whose region contains the
address; on failure the monitor is unchanged. -/
def CheckAndClear (mon : Monitor) (processor_id address : Nat) : Bool × Monitor :=
  let masked_address := address &&& RESERVATION_GRANULE_MASK
  if mon.exclusive_addresses processor_id ≠ masked_address then
    (false, mon)
  else
    (true,
     { mon with exclusive_addresses := fun q =>
         if mon.exclusive_addresses q = masked_address then INVALID_EXCLUSIVE_ADDRESS
         else mon.exclusive_addresses q })

/-- Source `ExclusiveMonitor::DoExclusiveOperation`: if `CheckAndClear` fails, return
false without invoking `op`; otherwise invoke `op` on the saved exclusive
value (here also given the memory, returning the operation's result and the
possibly-updated memory).  The result tuple is
(returned bool, monitor, memory, whether `op` was invoked). -/
def DoExclusiveOperation (mon : Monitor) (mem : Nat → Nat) (processor_id address : Nat)
    (op : Nat → (Nat → Nat) → Bool × (Nat → Nat)) :
    Bool × Monitor × (Nat → Nat) × Bool :=
  let cc := CheckAndClear mon processor_id address
  if cc.1 then
    let r := op (mon.exclusive_values processor_id) mem
    (r.1, cc.2, r.2, true)
  else
    (false, cc.2, mem, false)

/-- Events of the concurrent system: a load-exclusive (`ReadAndMark`), an
ordinary (non-exclusive) store, and a store-exclusive
(`DoExclusiveOperation` whose operation writes `v` to `a`). -/
inductive MonitorEvent
  | readAndMark (p a : Nat)
  | plainWrite (p a v : Nat)
  | exclusiveWrite (p a v : Nat)
deriving DecidableEq

structure MonitorSys where
  mon : Monitor
  mem : Nat → Nat

/-- One atomic event; the optional `Bool` is the result of a store-exclusive. -/
def monitorStep (s : MonitorSys) (e : MonitorEvent) : MonitorSys × Option Bool :=
  match e with
  | .readAndMark p a =>
      ({ s with mon := (ReadAndMark s.mon s.mem p a).1 }, none)
  | .plainWrite _ a v =>
      ({ s with mem := fun j => if j = a then v else s.mem j }, none)
  | .exclusiveWrite p a v =>
      let r := DoExclusiveOperation s.mon s.mem p a
        (fun _ m => (true, fun j => if j = a then v else m j))
      ({ mon := r.2.1, mem := r.2.2.1 }, some r.1)

def monitorRun (s : MonitorSys) (es : List MonitorEvent) : MonitorSys :=
  es.foldl (fun t e => (monitorStep t e).1) s

/-- Result of the event at position `k` of the trace, run from `s`. -/
def monitorResultAt (s : MonitorSys) (es : List MonitorEvent) (k : Nat) : Option Bool :=
  match es[k]? with
  | none => none
  | some e => (monitorStep (monitorRun s (es.take k)) e).2

/-! ## Signed saturating doubling multiply return high
(EmitX64::EmitSignedSaturatedDoublingMultiplyReturnHigh16/32)

The 16-bit form emits, on 32-bit registers,
```
movsx x, x16 ; movsx y, y16 ; imul x, y ; lea y, [x + x]
mov tmp, x ; shr tmp, 15 ; xor y, x
mov y, 0x7FFF ; cmovns y, tmp ; sets
```
and the 32-bit form the analogous sequence on 64-bit registers with shift 31
and constant `0x7FFFFFFF` moved into the 32-bit subregister.  The sign flag
consumed by `cmovns`/`sets` is the top bit of `(2p) xor p` where `p` is the
product register. -/
def signExtend16To32 (u : Nat) : Nat :=
  if u < 2 ^ 15 then u else u + (2 ^ 32 - 2 ^ 16)

def EmitSignedSaturatedDoublingMultiplyReturnHigh16 (a b : Nat) : Nat × Bool :=
  let x := signExtend16To32 (a % 2 ^ 16)
  let y := signExtend16To32 (b % 2 ^ 16)
  let p := (x * y) % 2 ^ 32
  let doubled := (2 * p) % 2 ^ 32
  let tmp := p / 2 ^ 15
  let sf := sgnBit 32 (doubled ^^^ p)
  (if sf then 0x7FFF else tmp, sf)

def signExtend32To64 (u : Nat) : Nat :=
  if u < 2 ^ 31 then u else u + (2 ^ 64 - 2 ^ 32)

def EmitSignedSaturatedDoublingMultiplyReturnHigh32 (a b : Nat) : Nat × Bool :=
  let x := signExtend32To64 (a % 2 ^ 32)
  let y := signExtend32To64 (b % 2 ^ 32)
  let p := (x * y) % 2 ^ 64
  let doubled := (2 * p) % 2 ^ 64
  let tmp := p / 2 ^ 31
  let sf := sgnBit 64 (doubled ^^^ p)
  (if sf then 0x7FFFFFFF else tmp % 2 ^ 32, sf)

def dmulhSpecFormula (width : Nat) (x y : Int) : Int :=
  min (2 * (x * y) / 2 ^ (2 * width - 1)) (2 ^ (width - 1) - 1)

/-! ## Theorems -/

/-! ## Helper lemmas -/
theorem mod_two_mul_cases (n m : Nat) (h : n < 2 * m) :
    n % m = if n < m then n else n - m := by
  rcases Nat.lt_or_ge n m with hlt | hge
  · rw [Nat.mod_eq_of_lt hlt, if_pos hlt]
  · rw [if_neg (Nat.not_lt.mpr hge), Nat.mod_eq_sub_mod hge,
      Nat.mod_eq_of_lt (by omega)]

theorem sgnBit_eq_decide (w x : Nat) (hw : 1 ≤ w) (hx : x < 2 ^ w) :
    sgnBit w x = decide (2 ^ (w - 1) ≤ x) := by
  have h2 : 2 ^ w = 2 ^ (w - 1) * 2 := by
    rw [← pow_succ]
    congr 1
    omega
  have hpos : 0 < 2 ^ (w - 1) := Nat.pos_pow_of_pos _ (by omega)
  unfold sgnBit
  rw [Nat.testBit_to_div_mod]
  rcases Nat.lt_or_ge x (2 ^ (w - 1)) with hlt | hge
  · rw [Nat.div_eq_of_lt hlt]
    simp [Nat.not_le.mpr hlt]
  · have hdiv : x / 2 ^ (w - 1) = 1 := by
      have h1 : 1 ≤ x / 2 ^ (w - 1) := (Nat.le_div_iff_mul_le hpos).mpr (by omega)
      have h2' : x / 2 ^ (w - 1) < 2 := (Nat.div_lt_iff_lt_mul hpos).mpr (by omega)
      omega
    rw [hdiv]
    simp [hge]

theorem toSInt_eq (w x : Nat) :
    toSInt w x = if x < 2 ^ (w - 1) then (x : Int) else (x : Int) - 2 ^ w := rfl

set_option maxHeartbeats 2000000 in
theorem signedSatAdd_spec (w a b : Nat) (hw : 1 ≤ w) (ha : a < 2 ^ w) (hb : b < 2 ^ w) :
    toSInt w (EmitSignedSaturatedOp .add w a b).1
        = satClampS w (toSInt w a + toSInt w b)
      ∧ ((EmitSignedSaturatedOp .add w a b).2 = true
        ↔ satClampS w (toSInt w a + toSInt w b) ≠ toSInt w a + toSInt w b) := by
  have h2 : 2 ^ w = 2 ^ (w - 1) * 2 := by
    rw [← pow_succ]; congr 1; omega
  have hpos : 0 < 2 ^ (w - 1) := Nat.pos_pow_of_pos _ (by omega)
  have hab : a + b < 2 * 2 ^ w := by omega
  have hr : (a + b) % 2 ^ w < 2 ^ w := Nat.mod_lt _ (by omega)
  simp only [EmitSignedSaturatedOp, wrapAdd, addOF, satClampS]
  rw [sgnBit_eq_decide w a hw ha, sgnBit_eq_decide w b hw hb,
    sgnBit_eq_decide w _ hw hr]
  rw [mod_two_mul_cases _ _ hab]
  have e1 : ((2 : Int) ^ (w - 1)) = ((2 ^ (w - 1) : Nat) : Int) := by push_cast; ring
  have e2 : ((2 : Int) ^ w) = ((2 ^ (w - 1) : Nat) : Int) * 2 := by
    push_cast
    rw [← pow_succ]
    congr 1
    omega
  simp only [toSInt_eq, Bool.and_eq_true, beq_iff_eq, bne_iff_ne, ne_eq,
    decide_eq_decide, decide_eq_true_eq, max_def, min_def, e1, e2, h2]
  split_ifs <;> omega

set_option maxHeartbeats 2000000 in
theorem signedSatSub_spec (w a b : Nat) (hw : 1 ≤ w) (ha : a < 2 ^ w) (hb : b < 2 ^ w) :
    toSInt w (EmitSignedSaturatedOp .sub w a b).1
        = satClampS w (toSInt w a - toSInt w b)
      ∧ ((EmitSignedSaturatedOp .sub w a b).2 = true
        ↔ satClampS w (toSInt w a - toSInt w b) ≠ toSInt w a - toSInt w b) := by
  have h2 : 2 ^ w = 2 ^ (w - 1) * 2 := by
    rw [← pow_succ]; congr 1; omega
  have hpos : 0 < 2 ^ (w - 1) := Nat.pos_pow_of_pos _ (by omega)
  have hab : a + (2 ^ w - b) < 2 * 2 ^ w := by omega
  have hr : (a + (2 ^ w - b)) % 2 ^ w < 2 ^ w := Nat.mod_lt _ (by omega)
  simp only [EmitSignedSaturatedOp, wrapSub, subOF, satClampS]
  rw [sgnBit_eq_decide w a hw ha, sgnBit_eq_decide w b hw hb,
    sgnBit_eq_decide w _ hw hr]
  rw [mod_two_mul_cases _ _ hab]
  have e1 : ((2 : Int) ^ (w - 1)) = ((2 ^ (w - 1) : Nat) : Int) := by push_cast; ring
  have e2 : ((2 : Int) ^ w) = ((2 ^ (w - 1) : Nat) : Int) * 2 := by
    push_cast
    rw [← pow_succ]
    congr 1
    omega
  simp only [toSInt_eq, Bool.and_eq_true, beq_iff_eq, bne_iff_ne, ne_eq,
    decide_eq_decide, decide_eq_true_eq, max_def, min_def, e1, e2, h2]
  split_ifs <;> omega

set_option maxHeartbeats 1000000 in
theorem unsignedSatAdd_spec (w a b : Nat) (ha : a < 2 ^ w) (hb : b < 2 ^ w) :
    ((EmitUnsignedSaturatedOp .add w a b).1 : Int)
        = satClampU w ((a : Int) + (b : Int))
      ∧ ((EmitUnsignedSaturatedOp .add w a b).2 = true
        ↔ satClampU w ((a : Int) + (b : Int)) ≠ (a : Int) + (b : Int)) := by
  have hpos : 0 < 2 ^ w := Nat.pos_pow_of_pos _ (by omega)
  have hab : a + b < 2 * 2 ^ w := by omega
  simp only [EmitUnsignedSaturatedOp, wrapAdd, satClampU]
  rw [mod_two_mul_cases _ _ hab]
  have e1 : ((2 : Int) ^ w) = ((2 ^ w : Nat) : Int) := by push_cast; ring
  simp only [ne_eq, decide_eq_true_eq, max_def, min_def, e1]
  split_ifs <;> omega

set_option maxHeartbeats 1000000 in
theorem unsignedSatSub_spec (w a b : Nat) (ha : a < 2 ^ w) (hb : b < 2 ^ w) :
    ((EmitUnsignedSaturatedOp .sub w a b).1 : Int)
        = satClampU w ((a : Int) - (b : Int))
      ∧ ((EmitUnsignedSaturatedOp .sub w a b).2 = true
        ↔ satClampU w ((a : Int) - (b : Int)) ≠ (a : Int) - (b : Int)) := by
  have hpos : 0 < 2 ^ w := Nat.pos_pow_of_pos _ (by omega)
  have hab : a + (2 ^ w - b) < 2 * 2 ^ w := by omega
  simp only [EmitUnsignedSaturatedOp, wrapSub, satClampU]
  rw [mod_two_mul_cases _ _ hab]
  have e1 : ((2 : Int) ^ w) = ((2 ^ w : Nat) : Int) := by push_cast; ring
  simp only [ne_eq, decide_eq_true_eq, max_def, min_def, e1]
  split_ifs <;> omega

/-- C1: for every pair of inputs and each width in {8, 16, 32, 64}, the signed
and unsigned saturating add and saturating sub operations return the
mathematically exact sum/difference clamped to the bounds of the signed
resp. unsigned integer type of that width, and the companion overflow (Q)
flag produced via the `GetOverflowFromOp` pseudo-operation is set if and only
if clamping occurred. -/
theorem claim_C1_saturating_add_sub (w a b : Nat)
    (hw : w = 8 ∨ w = 16 ∨ w = 32 ∨ w = 64) (ha : a < 2 ^ w) (hb : b < 2 ^ w) :
    (toSInt w (EmitSignedSaturatedOp .add w a b).1
        = satClampS w (toSInt w a + toSInt w b)
      ∧ ((EmitSignedSaturatedOp .add w a b).2 = true
        ↔ satClampS w (toSInt w a + toSInt w b) ≠ toSInt w a + toSInt w b))
    ∧ (toSInt w (EmitSignedSaturatedOp .sub w a b).1
        = satClampS w (toSInt w a - toSInt w b)
      ∧ ((EmitSignedSaturatedOp .sub w a b).2 = true
        ↔ satClampS w (toSInt w a - toSInt w b) ≠ toSInt w a - toSInt w b))
    ∧ (((EmitUnsignedSaturatedOp .add w a b).1 : Int)
        = satClampU w ((a : Int) + (b : Int))
      ∧ ((EmitUnsignedSaturatedOp .add w a b).2 = true
        ↔ satClampU w ((a : Int) + (b : Int)) ≠ (a : Int) + (b : Int)))
    ∧ (((EmitUnsignedSaturatedOp .sub w a b).1 : Int)
        = satClampU w ((a : Int) - (b : Int))
      ∧ ((EmitUnsignedSaturatedOp .sub w a b).2 = true
        ↔ satClampU w ((a : Int) - (b : Int)) ≠ (a : Int) - (b : Int))) := by
  have hw1 : 1 ≤ w := by rcases hw with h | h | h | h <;> omega
  exact ⟨signedSatAdd_spec w a b hw1 ha hb, signedSatSub_spec w a b hw1 ha hb,
    unsignedSatAdd_spec w a b ha hb, unsignedSatSub_spec w a b ha hb⟩

/-- Witness for C1: the theorem applied at width 8, inputs 255 and 130. -/
theorem claim_C1_saturating_add_sub_witness :
    (toSInt 8 (EmitSignedSaturatedOp .add 8 255 130).1
        = satClampS 8 (toSInt 8 255 + toSInt 8 130)
      ∧ ((EmitSignedSaturatedOp .add 8 255 130).2 = true
        ↔ satClampS 8 (toSInt 8 255 + toSInt 8 130) ≠ toSInt 8 255 + toSInt 8 130))
    ∧ (toSInt 8 (EmitSignedSaturatedOp .sub 8 255 130).1
        = satClampS 8 (toSInt 8 255 - toSInt 8 130)
      ∧ ((EmitSignedSaturatedOp .sub 8 255 130).2 = true
        ↔ satClampS 8 (toSInt 8 255 - toSInt 8 130) ≠ toSInt 8 255 - toSInt 8 130))
    ∧ (((EmitUnsignedSaturatedOp .add 8 255 130).1 : Int)
        = satClampU 8 ((255 : Int) + (130 : Int))
      ∧ ((EmitUnsignedSaturatedOp .add 8 255 130).2 = true
        ↔ satClampU 8 ((255 : Int) + (130 : Int)) ≠ (255 : Int) + (130 : Int)))
    ∧ (((EmitUnsignedSaturatedOp .sub 8 255 130).1 : Int)
        = satClampU 8 ((255 : Int) - (130 : Int))
      ∧ ((EmitUnsignedSaturatedOp .sub 8 255 130).2 = true
        ↔ satClampU 8 ((255 : Int) - (130 : Int)) ≠ (255 : Int) - (130 : Int))) := by
  have h := claim_C1_saturating_add_sub 8 255 130 (Or.inl rfl) (by decide) (by decide)
  exact_mod_cast h

theorem ones_xor_pos (N : Nat) (h1 : 1 ≤ N) (h2 : N ≤ 31) :
    (2 ^ 32 - 1) ^^^ (2 ^ (N - 1) - 1) = 2 ^ 32 - 2 ^ (N - 1) := by
  interval_cases N <;> decide

set_option maxHeartbeats 2000000 in
/-- C3: for every 32-bit input and every `N` with `1 ≤ N ≤ 32`,
`SignedSaturation(x, N)` returns `x` interpreted as a signed 32-bit integer
clamped to `[-2^(N-1), 2^(N-1)-1]`, the overflow flag is set exactly when `x`
lies outside that interval, and when `N = 32` the operation is the identity
with the overflow flag constant `false`. -/
theorem claim_C3_signed_saturation (a N : Nat) (ha : a < 2 ^ 32)
    (h1 : 1 ≤ N) (h2 : N ≤ 32) :
    (toSInt 32 (EmitSignedSaturation a N).1 = satClampS N (toSInt 32 a)
      ∧ ((EmitSignedSaturation a N).2 = true
          ↔ toSInt 32 a < -((2 : Int) ^ (N - 1))
            ∨ (2 : Int) ^ (N - 1) - 1 < toSInt 32 a))
    ∧ (N = 32 → (EmitSignedSaturation a N).1 = a
        ∧ (EmitSignedSaturation a N).2 = false) := by
  by_cases h32 : N = 32
  · subst h32
    refine ⟨⟨?_, ?_⟩, fun _ => ⟨rfl, rfl⟩⟩
    · simp only [EmitSignedSaturation, if_pos rfl, satClampS, toSInt, max_def, min_def]
      norm_num
      split_ifs <;> omega
    · simp only [EmitSignedSaturation, if_pos rfl, toSInt]
      norm_num
      split_ifs <;> omega
  · have hle : N ≤ 31 := by omega
    have hpow : (2 : Nat) ^ N = 2 ^ (N - 1) * 2 := by
      rw [← pow_succ]; congr 1; omega
    have hposk : 0 < (2 : Nat) ^ (N - 1) := Nat.pos_pow_of_pos _ (by omega)
    have hkb : (2 : Nat) ^ (N - 1) ≤ 1073741824 :=
      le_trans (Nat.pow_le_pow_right (by omega) (show N - 1 ≤ 30 by omega)) (by norm_num)
    have p32 : (2 : Nat) ^ 32 = 4294967296 := by norm_num
    have p31 : (2 : Nat) ^ (32 - 1) = 2147483648 := by norm_num
    have pi32 : ((2 : Int) ^ 32) = 4294967296 := by norm_num
    have pi31 : ((2 : Int) ^ (32 - 1)) = 2147483648 := by norm_num
    have e1 : ((2 : Int) ^ (N - 1)) = ((2 ^ (N - 1) : Nat) : Int) := by push_cast; ring
    have hmod : (a + 2 ^ (N - 1)) % 2 ^ 32
        = if a + 2 ^ (N - 1) < 2 ^ 32 then a + 2 ^ (N - 1) else a + 2 ^ (N - 1) - 2 ^ 32 := by
      apply mod_two_mul_cases
      omega
    have hxor : ((if sgnBit 32 a then 2 ^ 32 - 1 else 0) ^^^ (2 ^ (N - 1) - 1))
        = if sgnBit 32 a then 2 ^ 32 - 2 ^ (N - 1) else 2 ^ (N - 1) - 1 := by
      split_ifs
      · exact ones_xor_pos N h1 hle
      · exact Nat.zero_xor _
    have heq : EmitSignedSaturation a N
        = (if (a + 2 ^ (N - 1)) % 2 ^ 32 ≤ 2 ^ N - 1 then a
            else (if sgnBit 32 a then 2 ^ 32 - 1 else 0) ^^^ (2 ^ (N - 1) - 1),
           decide (2 ^ N - 1 < (a + 2 ^ (N - 1)) % 2 ^ 32)) := by
      simp only [EmitSignedSaturation, if_neg h32]
    rw [heq, hxor, hmod, sgnBit_eq_decide 32 a (by omega) ha]
    refine ⟨⟨?_, ?_⟩, fun h => absurd h h32⟩
    · dsimp only
      simp only [toSInt, satClampS, max_def, min_def, e1, hpow, p32, p31, pi32, pi31,
        decide_eq_true_eq]
      split_ifs <;> omega
    · dsimp only
      simp only [toSInt, e1, hpow, p32, p31, pi32, pi31, decide_eq_true_eq]
      split_ifs <;> omega

/-- Witness for C3: the theorem applied at input `0x80000000`, `N = 12`. -/
theorem claim_C3_signed_saturation_witness :
    (toSInt 32 (EmitSignedSaturation 2147483648 12).1
        = satClampS 12 (toSInt 32 2147483648)
      ∧ ((EmitSignedSaturation 2147483648 12).2 = true
          ↔ toSInt 32 2147483648 < -((2 : Int) ^ (12 - 1))
            ∨ (2 : Int) ^ (12 - 1) - 1 < toSInt 32 2147483648))
    ∧ (12 = 32 → (EmitSignedSaturation 2147483648 12).1 = 2147483648
        ∧ (EmitSignedSaturation 2147483648 12).2 = false) :=
  claim_C3_signed_saturation 2147483648 12 (by decide) (by decide) (by decide)

set_option maxHeartbeats 1000000 in
/-- C4: for every 32-bit input `x` (interpreted as a signed 32-bit integer) and
every `N ≤ 31`, `UnsignedSaturation(x, N)` returns `x` clamped to
`[0, 2^N - 1]`, and the overflow flag is set exactly when clamping changed
the value. -/
theorem claim_C4_unsigned_saturation (a N : Nat) (ha : a < 2 ^ 32) (hN : N ≤ 31) :
    ((EmitUnsignedSaturation a N).1 : Int) = satClampU N (toSInt 32 a)
      ∧ ((EmitUnsignedSaturation a N).2 = true
          ↔ satClampU N (toSInt 32 a) ≠ toSInt 32 a) := by
  have hposN : 0 < (2 : Nat) ^ N := Nat.pos_pow_of_pos _ (by omega)
  have hkb : (2 : Nat) ^ N ≤ 2147483648 :=
    le_trans (Nat.pow_le_pow_right (by omega) hN) (by norm_num)
  have p32 : (2 : Nat) ^ 32 = 4294967296 := by norm_num
  have p31 : (2 : Nat) ^ (32 - 1) = 2147483648 := by norm_num
  have pi32 : ((2 : Int) ^ 32) = 4294967296 := by norm_num
  have eN : ((2 : Int) ^ N) = ((2 ^ N : Nat) : Int) := by push_cast; ring
  have heq : EmitUnsignedSaturation a N
      = (if a ≤ 2 ^ N - 1 then a
          else if toSInt 32 a ≤ ((2 ^ N - 1 : Nat) : Int) then 0 else 2 ^ N - 1,
         decide (2 ^ N - 1 < a)) := by
    simp only [EmitUnsignedSaturation]
  rw [heq]
  dsimp only
  simp only [toSInt, satClampU, max_def, min_def, eN, p32, p31, pi32,
    decide_eq_true_eq, ne_eq]
  split_ifs <;> omega

/-- Witness for C4: the theorem applied at input `5000`, `N = 8`. -/
theorem claim_C4_unsigned_saturation_witness :
    ((EmitUnsignedSaturation 5000 8).1 : Int) = satClampU 8 (toSInt 32 5000)
      ∧ ((EmitUnsignedSaturation 5000 8).2 = true
          ↔ satClampU 8 (toSInt 32 5000) ≠ toSInt 32 5000) :=
  claim_C4_unsigned_saturation 5000 8 (by decide) (by decide)

theorem find?_eq_some_iff_first {α : Type} (p : α → Bool) (l : List α) (x : α) :
    l.find? p = some x
      ↔ ∃ i : Nat, l[i]? = some x ∧ p x = true
          ∧ ∀ j, j < i → ∀ y, l[j]? = some y → p y = false := by
  induction l with
  | nil => simp
  | cons a t ih =>
    by_cases hpa : p a = true
    · rw [List.find?_cons_of_pos _ hpa]
      constructor
      · intro h
        obtain rfl : a = x := by injection h
        exact ⟨0, by simp, hpa, fun j hj => by omega⟩
      · rintro ⟨i, hget, hpx, hfirst⟩
        match i with
        | 0 =>
          obtain rfl : a = x := by simpa using hget
          rfl
        | i + 1 =>
          have := hfirst 0 (by omega) a (by simp)
          rw [this] at hpa
          exact absurd hpa (by simp)
    · rw [List.find?_cons_of_neg _ hpa]
      rw [ih]
      constructor
      · rintro ⟨i, hget, hpx, hfirst⟩
        refine ⟨i + 1, by simpa using hget, hpx, fun j hj y hy => ?_⟩
        match j with
        | 0 =>
          obtain rfl : a = y := by simpa using hy
          simpa using hpa
        | j + 1 =>
          exact hfirst j (by omega) y (by simpa using hy)
      · rintro ⟨i, hget, hpx, hfirst⟩
        match i with
        | 0 =>
          obtain rfl : a = x := by simpa using hget
          exact absurd hpx hpa
        | i + 1 =>
          refine ⟨i, by simpa using hget, hpx, fun j hj y hy => ?_⟩
          exact hfirst (j + 1) (by omega) y (by simpa using hy)

/-- C5: `Matcher::Matches(w)` returns true if and only if
`(w & mask) == expected`, and the decoder invokes the handler of the first
matcher in declaration order for which this holds, so overlapping patterns
are disambiguated by declaration order only. -/
theorem claim_C5_decoder_first_match (table : List Matcher) (w : Nat) (m : Matcher) :
    (m.Matches w = true ↔ w &&& m.mask = m.expected)
    ∧ (DecodeTable table w = some m
        ↔ ∃ i : Nat, table[i]? = some m ∧ m.Matches w = true
            ∧ ∀ j, j < i → ∀ y, table[j]? = some y → y.Matches w = false) := by
  constructor
  · simp [Matcher.Matches]
  · exact find?_eq_some_iff_first (fun mm => mm.Matches w) table m

theorem do_not_fastmem_monotone (s : A32EmitterState) (es : List EmitterEvent)
    (marker : DoNotFastmemMarker) (h : marker ∈ s.do_not_fastmem) :
    marker ∈ (emitterRun s es).do_not_fastmem := by
  induction es generalizing s with
  | nil => exact h
  | cons e t ih =>
    refine ih (emitterStep s e) ?_
    cases e with
    | doNotFastmem m => exact List.mem_cons_of_mem _ h
    | clearCache => exact h
    | invalidateRanges descs => exact h
    | registerBlock desc => exact h

/-- C6: once a fastmem patch site has been demoted (its `DoNotFastmem` marker
recorded and the containing block invalidated), every subsequent sequence of
emitter operations leaves `ShouldFastmem` false for that marker, so every
later compilation of the block emits the non-fastmem path at that site. -/
theorem claim_C6_fastmem_demotion (s : A32EmitterState)
    (marker : DoNotFastmemMarker) (es : List EmitterEvent) (page_table : Bool) :
    ShouldFastmem (emitterRun (DoNotFastmem s marker) es) marker = false
      ∧ ReadMemoryEmittedPath (emitterRun (DoNotFastmem s marker) es) page_table marker
          ≠ .fastmem := by
  have hmem : marker ∈ (emitterRun (DoNotFastmem s marker) es).do_not_fastmem :=
    do_not_fastmem_monotone _ es marker (List.mem_cons_self _ _)
  have hsf : ShouldFastmem (emitterRun (DoNotFastmem s marker) es) marker = false := by
    have htrue : (emitterRun (DoNotFastmem s marker) es).do_not_fastmem.contains marker
        = true := List.elem_eq_true_of_mem hmem
    unfold ShouldFastmem
    rw [htrue]
    simp
  refine ⟨hsf, ?_⟩
  unfold ReadMemoryEmittedPath
  rw [if_neg (by simp [hsf])]
  split_ifs <;> simp

set_option maxHeartbeats 1000000 in
/-- C7: for a block ending in `LinkBlock(next)` with optimizations enabled and
not single-stepping, the emitted code compares the remaining-cycles register
and, if it is positive, takes the directly patched jump to the compiled
entrypoint of `next`; otherwise it stores `next`'s PC, pushes the next
descriptor on the RSB, and returns (forced) to the dispatcher; and when
`next` is not yet compiled the patched site instead materializes the PC and
returns to the dispatcher. -/
theorem claim_C7_link_block_terminal (old_upper new_upper nextPC next_desc : Nat)
    (s : TermState) :
    (∀ e, 0 < s.cycles_remaining →
      execLinkBlock
          (EmitTerminalLinkBlock true false old_upper new_upper nextPC next_desc (some e)) s
        = ({ s with
              flag_gt := true
              upper_loc := if old_upper ≠ new_upper then new_upper else s.upper_loc },
           .jumpedTo e))
    ∧ (∀ e, s.cycles_remaining ≤ 0 →
      execLinkBlock
          (EmitTerminalLinkBlock true false old_upper new_upper nextPC next_desc (some e)) s
        = ({ s with
              flag_gt := false
              upper_loc := if old_upper ≠ new_upper then new_upper else s.upper_loc
              pc := nextPC
              rsb := next_desc :: s.rsb },
           .forcedReturnToDispatcher))
    ∧ (0 < s.cycles_remaining →
      execLinkBlock
          (EmitTerminalLinkBlock true false old_upper new_upper nextPC next_desc none) s
        = ({ s with
              flag_gt := true
              upper_loc := if old_upper ≠ new_upper then new_upper else s.upper_loc
              pc := nextPC },
           .returnedToDispatcher))
    ∧ (s.cycles_remaining ≤ 0 →
      execLinkBlock
          (EmitTerminalLinkBlock true false old_upper new_upper nextPC next_desc none) s
        = ({ s with
              flag_gt := false
              upper_loc := if old_upper ≠ new_upper then new_upper else s.upper_loc
              pc := nextPC
              rsb := next_desc :: s.rsb },
           .forcedReturnToDispatcher)) := by
  refine ⟨fun e hc => ?_, fun e hc => ?_, fun hc => ?_, fun hc => ?_⟩ <;>
    [skip; skip; skip; skip] <;>
    first
    | (have hd : decide (0 < s.cycles_remaining) = true := by simpa using hc
       by_cases hu : old_upper ≠ new_upper <;>
         simp [EmitTerminalLinkBlock, EmitSetUpperLocationDescriptor, EmitPatchJg,
           execLinkBlock, execOps, branchOutcome, hu, hd])
    | (have hd : decide (0 < s.cycles_remaining) = false := by
         simp only [decide_eq_false_iff_not]
         omega
       by_cases hu : old_upper ≠ new_upper <;>
         simp [EmitTerminalLinkBlock, EmitSetUpperLocationDescriptor, EmitPatchJg,
           execLinkBlock, execOps, branchOutcome, hu, hd])

/-- Witness for C7: a block with 3 cycles remaining linking to a compiled
block at entrypoint 999 jumps straight to that entrypoint. -/
theorem claim_C7_link_block_terminal_witness :
    execLinkBlock (EmitTerminalLinkBlock true false 1 2 100 55 (some 999))
        ⟨3, false, 0, 7, []⟩
      = ({ cycles_remaining := 3, flag_gt := true, pc := 0,
           upper_loc := if (1 : Nat) ≠ 2 then 2 else 7, rsb := [] },
         .jumpedTo 999) :=
  (claim_C7_link_block_terminal 1 2 100 55 ⟨3, false, 0, 7, []⟩).1 999 (by decide)

theorem readAES_writeAES (mem : Nat → Nat) (addr : Nat) (st : AESState) :
    readAES (writeAES mem addr st) addr = st := by
  funext i
  have hi := i.isLt
  unfold readAES writeAES
  rw [dif_pos ⟨Nat.le_add_right _ _, by omega⟩]
  congr 1
  refine Fin.ext ?_
  show addr + (i : Nat) - addr = (i : Nat)
  omega

/-- C8: for every 128-bit input, both lowerings of `AESInverseMixColumns`
(the single `aesimc` host instruction with AES-NI, and the stack-shadow
trampoline to the scalar software routine without it) compute the same AES
InverseMixColumns function of the 128-bit state. -/
theorem claim_C8_aes_inverse_mix_columns (hasAESNI : Bool) (shadow : Nat)
    (mem : Nat → Nat) (input : AESState) :
    EmitAESInverseMixColumns hasAESNI shadow mem input = InverseMixColumnsRef input := by
  cases hasAESNI with
  | true => rfl
  | false =>
    show EmitAESFunction shadow AES_InverseMixColumns mem input = InverseMixColumnsRef input
    unfold EmitAESFunction
    rw [readAES_writeAES, readAES_writeAES]
    rfl

theorem exclusiveWrite_result (t : MonitorSys) (p a v : Nat) :
    (monitorStep t (.exclusiveWrite p a v)).2
      = some (decide (t.mon.exclusive_addresses p = a &&& RESERVATION_GRANULE_MASK)) := by
  unfold monitorStep DoExclusiveOperation CheckAndClear
  by_cases h : t.mon.exclusive_addresses p = a &&& RESERVATION_GRANULE_MASK <;> simp [h]

theorem exclusiveWrite_step_addresses (t : MonitorSys) (p a v r : Nat) :
    ((monitorStep t (.exclusiveWrite p a v)).1).mon.exclusive_addresses r
      = if t.mon.exclusive_addresses p = a &&& RESERVATION_GRANULE_MASK then
          (if t.mon.exclusive_addresses r = a &&& RESERVATION_GRANULE_MASK
           then INVALID_EXCLUSIVE_ADDRESS else t.mon.exclusive_addresses r)
        else t.mon.exclusive_addresses r := by
  unfold monitorStep DoExclusiveOperation CheckAndClear
  by_cases h : t.mon.exclusive_addresses p = a &&& RESERVATION_GRANULE_MASK <;> simp [h]

theorem monitorStep_addresses (t : MonitorSys) (e : MonitorEvent) (P g : Nat)
    (hP : t.mon.exclusive_addresses P ≠ g) (hg : g ≠ INVALID_EXCLUSIVE_ADDRESS)
    (hnot : ∀ c, e ≠ MonitorEvent.readAndMark P c) :
    ((monitorStep t e).1).mon.exclusive_addresses P ≠ g := by
  cases e with
  | readAndMark q c =>
      have hq : P ≠ q := fun h => hnot c (by rw [h])
      simpa [monitorStep, ReadAndMark, hq] using hP
  | plainWrite q c v => simpa [monitorStep] using hP
  | exclusiveWrite q c v =>
      rw [exclusiveWrite_step_addresses]
      split_ifs with h1 h2
      · exact Ne.symm hg
      · exact hP
      · exact hP

theorem monitorRun_addresses (t : MonitorSys) (evs : List MonitorEvent) (P g : Nat)
    (hP : t.mon.exclusive_addresses P ≠ g) (hg : g ≠ INVALID_EXCLUSIVE_ADDRESS)
    (hno : ∀ c, MonitorEvent.readAndMark P c ∉ evs) :
    (monitorRun t evs).mon.exclusive_addresses P ≠ g := by
  induction evs generalizing t with
  | nil => exact hP
  | cons e rest ih =>
      have h1 : ((monitorStep t e).1).mon.exclusive_addresses P ≠ g :=
        monitorStep_addresses t e P g hP hg
          (fun c hc => hno c (hc ▸ List.mem_cons_self _ _))
      exact ih ((monitorStep t e).1) h1 (fun c hc => hno c (List.mem_cons_of_mem _ hc))

theorem monitorRun_append (t : MonitorSys) (l1 l2 : List MonitorEvent) :
    monitorRun t (l1 ++ l2) = monitorRun (monitorRun t l1) l2 := by
  unfold monitorRun
  exact List.foldl_append _ _ _ _

set_option maxHeartbeats 1000000 in
/-- C9 (amended): in any interleaving, if processor `P`'s store-exclusive to
`aP` succeeds and `P` issued no further load-exclusive since its
`ReadAndMark`, then every store-exclusive issued by another processor to
`P`'s reservation granule in between failed — provided the granule is not
the sentinel `INVALID_EXCLUSIVE_ADDRESS`.  Ordinary (non-exclusive) writes
are invisible to the monitor, so the claim's "any write, exclusive or
otherwise" does not hold (see the counterexample). -/
theorem claim_C9_exclusive_monitor (s0 : MonitorSys) (P a aP vP : Nat)
    (mid : List MonitorEvent) (k q b w : Nat)
    (hg : aP &&& RESERVATION_GRANULE_MASK ≠ INVALID_EXCLUSIVE_ADDRESS)
    (hno : ∀ c, MonitorEvent.readAndMark P c ∉ mid)
    (hq : q ≠ P)
    (hgr : b &&& RESERVATION_GRANULE_MASK = aP &&& RESERVATION_GRANULE_MASK)
    (hev : mid[k]? = some (.exclusiveWrite q b w))
    (hsucc : (monitorStep
        (monitorRun ((monitorStep s0 (.readAndMark P a)).1) mid)
        (.exclusiveWrite P aP vP)).2 = some true) :
    monitorResultAt ((monitorStep s0 (.readAndMark P a)).1) mid k = some false := by
  have hklen : k < mid.length := (List.getElem?_eq_some.mp hev).1
  have hmidk : mid[k] = MonitorEvent.exclusiveWrite q b w := by
    rw [List.getElem?_eq_getElem hklen] at hev
    injection hev
  unfold monitorResultAt
  rw [hev]
  dsimp only
  rw [exclusiveWrite_result]
  by_cases hres : (monitorRun ((monitorStep s0 (.readAndMark P a)).1)
      (mid.take k)).mon.exclusive_addresses q = b &&& RESERVATION_GRANULE_MASK
  · exfalso
    -- the final state's reservation for P is the granule (from hsucc)
    rw [exclusiveWrite_result] at hsucc
    have hfin : (monitorRun ((monitorStep s0 (.readAndMark P a)).1)
        mid).mon.exclusive_addresses P = aP &&& RESERVATION_GRANULE_MASK := by
      have := Option.some.inj hsucc
      exact of_decide_eq_true this
    -- decompose the trace around position k
    have hdecomp : mid = mid.take k
        ++ MonitorEvent.exclusiveWrite q b w :: mid.drop (k + 1) := by
      conv_lhs => rw [← List.take_append_drop k mid]
      rw [List.drop_eq_getElem_cons hklen, hmidk]
    -- after the successful other-processor store-exclusive, P's reservation
    -- is no longer the granule, and stays so
    have hafter : ((monitorStep
        (monitorRun ((monitorStep s0 (.readAndMark P a)).1) (mid.take k))
        (.exclusiveWrite q b w)).1).mon.exclusive_addresses P
          ≠ aP &&& RESERVATION_GRANULE_MASK := by
      rw [exclusiveWrite_step_addresses, hgr,
        if_pos (show _ = aP &&& RESERVATION_GRANULE_MASK by rw [← hgr]; exact hres)]
      split_ifs with h2
      · exact Ne.symm hg
      · exact h2
    have hpersist : (monitorRun ((monitorStep
        (monitorRun ((monitorStep s0 (.readAndMark P a)).1) (mid.take k))
        (.exclusiveWrite q b w)).1)
          (mid.drop (k + 1))).mon.exclusive_addresses P
            ≠ aP &&& RESERVATION_GRANULE_MASK := by
      refine monitorRun_addresses _ _ _ _ hafter hg ?_
      intro c hc
      exact hno c (List.mem_of_mem_drop hc)
    refine hpersist ?_
    rw [← hfin]
    congr 1
    conv_rhs => rw [hdecomp]
    rw [monitorRun_append]
    rfl
  · simp [hres]

/-- Counterexample to C9 as stated: processor 0 marks address 4, processor 1
performs an ordinary (non-exclusive) write to address 4 in between, and
processor 0's store-exclusive nevertheless succeeds, because ordinary writes
do not pass through the monitor.  The trace below runs from a monitor with
no reservations and zeroed memory. -/
theorem claim_C9_exclusive_monitor_counterexample :
    (let s0 : MonitorSys :=
      ⟨⟨fun _ => INVALID_EXCLUSIVE_ADDRESS, fun _ => 0⟩, fun _ => 0⟩
     let tr := [MonitorEvent.readAndMark 0 4,
                MonitorEvent.plainWrite 1 4 42,
                MonitorEvent.exclusiveWrite 0 4 7]
     tr[1]? = some (MonitorEvent.plainWrite 1 4 42)
       ∧ (4 : Nat) &&& RESERVATION_GRANULE_MASK = 4 &&& RESERVATION_GRANULE_MASK
       ∧ monitorResultAt s0 tr 2 = some true) := by
  refine ⟨rfl, rfl, ?_⟩
  decide

/-- Witness for the amended C9: a failing store-exclusive by processor 1 at
the granule of address 4 between processor 0's `ReadAndMark` and its
successful store-exclusive. -/
theorem claim_C9_exclusive_monitor_witness :
    monitorResultAt
        ((monitorStep ⟨⟨fun _ => INVALID_EXCLUSIVE_ADDRESS, fun _ => 0⟩, fun _ => 0⟩
          (.readAndMark 0 4)).1)
        [MonitorEvent.exclusiveWrite 1 4 9] 0 = some false := by
  refine claim_C9_exclusive_monitor
    ⟨⟨fun _ => INVALID_EXCLUSIVE_ADDRESS, fun _ => 0⟩, fun _ => 0⟩
    0 4 4 7 [MonitorEvent.exclusiveWrite 1 4 9] 0 1 4 9
    (by decide) ?_ (by decide) rfl rfl ?_
  · intro c hc
    simp at hc
  · decide

/-- C10: if `DoExclusiveOperation` is called while the processor does not hold
an exclusive reservation covering the address (`CheckAndClear` fails), it
returns false without invoking the supplied operation, the memory is
untouched, and the monitor (in particular its saved exclusive value for that
processor) is unchanged. -/
theorem claim_C10_do_exclusive_operation_failure (mon : Monitor) (mem : Nat → Nat)
    (p a : Nat) (op : Nat → (Nat → Nat) → Bool × (Nat → Nat))
    (h : mon.exclusive_addresses p ≠ a &&& RESERVATION_GRANULE_MASK) :
    DoExclusiveOperation mon mem p a op = (false, mon, mem, false) := by
  unfold DoExclusiveOperation CheckAndClear
  simp [h]

/-- Witness for C10: a monitor with no reservation for processor 0 rejects a
store-exclusive to address 4 without running the operation. -/
theorem claim_C10_do_exclusive_operation_failure_witness :
    DoExclusiveOperation
        ⟨fun _ => INVALID_EXCLUSIVE_ADDRESS, fun _ => 0⟩ (fun _ => 0) 0 4
        (fun _ m => (true, m))
      = (false, ⟨fun _ => INVALID_EXCLUSIVE_ADDRESS, fun _ => 0⟩, fun _ => 0, false) :=
  claim_C10_do_exclusive_operation_failure
    ⟨fun _ => INVALID_EXCLUSIVE_ADDRESS, fun _ => 0⟩ (fun _ => 0) 0 4
    (fun _ m => (true, m)) (by decide)

theorem abs_mul_le (X Y h : Int) (hh : 0 ≤ h)
    (hX1 : -h ≤ X) (hX2 : X < h) (hY1 : -h ≤ Y) (hY2 : Y < h) :
    -(h * h) ≤ X * Y ∧ X * Y ≤ h * h := by
  have haX : |X| ≤ h := abs_le.mpr ⟨hX1, by omega⟩
  have haY : |Y| ≤ h := abs_le.mpr ⟨hY1, by omega⟩
  have habs : |X * Y| ≤ h * h := by
    rw [abs_mul]
    exact mul_le_mul haX haY (abs_nonneg _) hh
  have := abs_le.mp habs
  omega

theorem xor_decide_eq (p q : Prop) [Decidable p] [Decidable q] :
    ((decide p).xor (decide q)) = decide (¬(p ↔ q)) := by
  by_cases hp : p <;> by_cases hq : q <;> simp [hp, hq]

set_option maxHeartbeats 4000000 in
theorem dmulh16_spec (a b : Nat) :
    toSInt 16 ((EmitSignedSaturatedDoublingMultiplyReturnHigh16 a b).1 % 2 ^ 16)
        = satClampS 16 (2 * (toSInt 16 (a % 2 ^ 16) * toSInt 16 (b % 2 ^ 16)) / 2 ^ 16)
      ∧ ((EmitSignedSaturatedDoublingMultiplyReturnHigh16 a b).2 = true
        ↔ satClampS 16 (2 * (toSInt 16 (a % 2 ^ 16) * toSInt 16 (b % 2 ^ 16)) / 2 ^ 16)
            ≠ 2 * (toSInt 16 (a % 2 ^ 16) * toSInt 16 (b % 2 ^ 16)) / 2 ^ 16) := by
  have hu : a % 2 ^ 16 < 2 ^ 16 := Nat.mod_lt _ (by norm_num)
  have hv : b % 2 ^ 16 < 2 ^ 16 := Nat.mod_lt _ (by norm_num)
  have hx2 : ∃ c : Int, ((signExtend16To32 (a % 2 ^ 16) : Nat) : Int)
      = toSInt 16 (a % 2 ^ 16) + 2 ^ 32 * c := by
    unfold signExtend16To32 toSInt
    norm_num
    split_ifs
    · exact ⟨0, by push_cast; ring⟩
    · exact ⟨1, by omega⟩
  have hy2 : ∃ c : Int, ((signExtend16To32 (b % 2 ^ 16) : Nat) : Int)
      = toSInt 16 (b % 2 ^ 16) + 2 ^ 32 * c := by
    unfold signExtend16To32 toSInt
    norm_num
    split_ifs
    · exact ⟨0, by push_cast; ring⟩
    · exact ⟨1, by omega⟩
  have hXb : -(2 ^ 15 : Int) ≤ toSInt 16 (a % 2 ^ 16)
      ∧ toSInt 16 (a % 2 ^ 16) < 2 ^ 15 := by
    unfold toSInt
    norm_num
    split_ifs <;> omega
  have hYb : -(2 ^ 15 : Int) ≤ toSInt 16 (b % 2 ^ 16)
      ∧ toSInt 16 (b % 2 ^ 16) < 2 ^ 15 := by
    unfold toSInt
    norm_num
    split_ifs <;> omega
  have hZb := abs_mul_le _ _ _ (by norm_num) hXb.1 hXb.2 hYb.1 hYb.2
  set Z := toSInt 16 (a % 2 ^ 16) * toSInt 16 (b % 2 ^ 16) with hZ
  set pN := (signExtend16To32 (a % 2 ^ 16) * signExtend16To32 (b % 2 ^ 16)) % 2 ^ 32
    with hpNdef
  have hpNlt : pN < 2 ^ 32 := Nat.mod_lt _ (by norm_num)
  have hpval : (pN : Int) = Z + (if Z < 0 then 2 ^ 32 else 0) := by
    obtain ⟨c1, hc1⟩ := hx2
    obtain ⟨c2, hc2⟩ := hy2
    have h1 : (pN : Int)
        = (((signExtend16To32 (a % 2 ^ 16) : Nat) : Int)
            * ((signExtend16To32 (b % 2 ^ 16) : Nat) : Int)) % ((2 : Int) ^ 32) := by
      rw [hpNdef]
      push_cast
      ring_nf
    rw [h1, hc1, hc2]
    have h2 : (toSInt 16 (a % 2 ^ 16) + 2 ^ 32 * c1)
          * (toSInt 16 (b % 2 ^ 16) + 2 ^ 32 * c2)
        = Z + 2 ^ 32 * (toSInt 16 (a % 2 ^ 16) * c2 + c1 * toSInt 16 (b % 2 ^ 16)
            + 2 ^ 32 * (c1 * c2)) := by
      rw [hZ]
      ring
    rw [h2, Int.add_mul_emod_self_left]
    norm_num at hZb ⊢
    split_ifs <;> omega
  have hdlt : (2 * pN) % 2 ^ 32 < 2 ^ 32 := Nat.mod_lt _ (by norm_num)
  have hsf : sgnBit 32 ((2 * pN) % 2 ^ 32 ^^^ pN)
      = decide (¬((2 ^ 31 ≤ (2 * pN) % 2 ^ 32) ↔ (2 ^ 31 ≤ pN))) := by
    unfold sgnBit
    rw [Nat.testBit_xor]
    rw [show Nat.testBit ((2 * pN) % 2 ^ 32) (32 - 1) = sgnBit 32 ((2 * pN) % 2 ^ 32)
        from rfl,
      show Nat.testBit pN (32 - 1) = sgnBit 32 pN from rfl,
      sgnBit_eq_decide 32 _ (by norm_num) hdlt,
      sgnBit_eq_decide 32 _ (by norm_num) hpNlt]
    norm_num [xor_decide_eq]
  show toSInt 16 ((if sgnBit 32 ((2 * pN) % 2 ^ 32 ^^^ pN) then 32767 else pN / 2 ^ 15)
          % 2 ^ 16)
        = satClampS 16 (2 * Z / 2 ^ 16)
      ∧ (sgnBit 32 ((2 * pN) % 2 ^ 32 ^^^ pN) = true
        ↔ satClampS 16 (2 * Z / 2 ^ 16) ≠ 2 * Z / 2 ^ 16)
  rw [hsf]
  rcases lt_or_ge Z 0 with hZs | hZs
  · rw [if_pos hZs] at hpval
    simp only [toSInt, satClampS, max_def, min_def, decide_eq_true_eq, ne_eq]
    norm_num at hZb ⊢
    split_ifs <;> omega
  · rw [if_neg (by omega)] at hpval
    simp only [toSInt, satClampS, max_def, min_def, decide_eq_true_eq, ne_eq]
    norm_num at hZb ⊢
    split_ifs <;> omega

set_option maxHeartbeats 4000000 in
theorem dmulh32_spec (a b : Nat) :
    toSInt 32 (EmitSignedSaturatedDoublingMultiplyReturnHigh32 a b).1
        = satClampS 32 (2 * (toSInt 32 (a % 2 ^ 32) * toSInt 32 (b % 2 ^ 32)) / 2 ^ 32)
      ∧ ((EmitSignedSaturatedDoublingMultiplyReturnHigh32 a b).2 = true
        ↔ satClampS 32 (2 * (toSInt 32 (a % 2 ^ 32) * toSInt 32 (b % 2 ^ 32)) / 2 ^ 32)
            ≠ 2 * (toSInt 32 (a % 2 ^ 32) * toSInt 32 (b % 2 ^ 32)) / 2 ^ 32) := by
  have hu : a % 2 ^ 32 < 2 ^ 32 := Nat.mod_lt _ (by norm_num)
  have hv : b % 2 ^ 32 < 2 ^ 32 := Nat.mod_lt _ (by norm_num)
  have hx2 : ∃ c : Int, ((signExtend32To64 (a % 2 ^ 32) : Nat) : Int)
      = toSInt 32 (a % 2 ^ 32) + 2 ^ 64 * c := by
    unfold signExtend32To64 toSInt
    norm_num
    split_ifs
    · exact ⟨0, by push_cast; ring⟩
    · exact ⟨1, by omega⟩
  have hy2 : ∃ c : Int, ((signExtend32To64 (b % 2 ^ 32) : Nat) : Int)
      = toSInt 32 (b % 2 ^ 32) + 2 ^ 64 * c := by
    unfold signExtend32To64 toSInt
    norm_num
    split_ifs
    · exact ⟨0, by push_cast; ring⟩
    · exact ⟨1, by omega⟩
  have hXb : -(2 ^ 31 : Int) ≤ toSInt 32 (a % 2 ^ 32)
      ∧ toSInt 32 (a % 2 ^ 32) < 2 ^ 31 := by
    unfold toSInt
    norm_num
    split_ifs <;> omega
  have hYb : -(2 ^ 31 : Int) ≤ toSInt 32 (b % 2 ^ 32)
      ∧ toSInt 32 (b % 2 ^ 32) < 2 ^ 31 := by
    unfold toSInt
    norm_num
    split_ifs <;> omega
  have hZb := abs_mul_le _ _ _ (by norm_num) hXb.1 hXb.2 hYb.1 hYb.2
  set Z := toSInt 32 (a % 2 ^ 32) * toSInt 32 (b % 2 ^ 32) with hZ
  set pN := (signExtend32To64 (a % 2 ^ 32) * signExtend32To64 (b % 2 ^ 32)) % 2 ^ 64
    with hpNdef
  have hpNlt : pN < 2 ^ 64 := Nat.mod_lt _ (by norm_num)
  have hpval : (pN : Int) = Z + (if Z < 0 then 2 ^ 64 else 0) := by
    obtain ⟨c1, hc1⟩ := hx2
    obtain ⟨c2, hc2⟩ := hy2
    have h1 : (pN : Int)
        = (((signExtend32To64 (a % 2 ^ 32) : Nat) : Int)
            * ((signExtend32To64 (b % 2 ^ 32) : Nat) : Int)) % ((2 : Int) ^ 64) := by
      rw [hpNdef]
      push_cast
      ring_nf
    rw [h1, hc1, hc2]
    have h2 : (toSInt 32 (a % 2 ^ 32) + 2 ^ 64 * c1)
          * (toSInt 32 (b % 2 ^ 32) + 2 ^ 64 * c2)
        = Z + 2 ^ 64 * (toSInt 32 (a % 2 ^ 32) * c2 + c1 * toSInt 32 (b % 2 ^ 32)
            + 2 ^ 64 * (c1 * c2)) := by
      rw [hZ]
      ring
    rw [h2, Int.add_mul_emod_self_left]
    norm_num at hZb ⊢
    split_ifs <;> omega
  have hdlt : (2 * pN) % 2 ^ 64 < 2 ^ 64 := Nat.mod_lt _ (by norm_num)
  have hsf : sgnBit 64 ((2 * pN) % 2 ^ 64 ^^^ pN)
      = decide (¬((2 ^ 63 ≤ (2 * pN) % 2 ^ 64) ↔ (2 ^ 63 ≤ pN))) := by
    unfold sgnBit
    rw [Nat.testBit_xor]
    rw [show Nat.testBit ((2 * pN) % 2 ^ 64) (64 - 1) = sgnBit 64 ((2 * pN) % 2 ^ 64)
        from rfl,
      show Nat.testBit pN (64 - 1) = sgnBit 64 pN from rfl,
      sgnBit_eq_decide 64 _ (by norm_num) hdlt,
      sgnBit_eq_decide 64 _ (by norm_num) hpNlt]
    norm_num [xor_decide_eq]
  show toSInt 32 ((if sgnBit 64 ((2 * pN) % 2 ^ 64 ^^^ pN) then 2147483647
          else pN / 2 ^ 31 % 2 ^ 32))
        = satClampS 32 (2 * Z / 2 ^ 32)
      ∧ (sgnBit 64 ((2 * pN) % 2 ^ 64 ^^^ pN) = true
        ↔ satClampS 32 (2 * Z / 2 ^ 32) ≠ 2 * Z / 2 ^ 32)
  rw [hsf]
  rcases lt_or_ge Z 0 with hZs | hZs
  · rw [if_pos hZs] at hpval
    simp only [toSInt, satClampS, max_def, min_def, decide_eq_true_eq, ne_eq]
    norm_num at hZb ⊢
    split_ifs <;> omega
  · rw [if_neg (by omega)] at hpval
    simp only [toSInt, satClampS, max_def, min_def, decide_eq_true_eq, ne_eq]
    norm_num at hZb ⊢
    split_ifs <;> omega

/-- C2 (amended): the result is the doubled product shifted right by the
element width (the high half of the doubled product), saturated to the
signed bounds of the element width, with the Q flag set exactly when
saturation changed the value.  Proved for both the 16- and the 32-bit
operation, for all inputs. -/
theorem claim_C2_doubling_multiply_high (a b : Nat) :
    (toSInt 16 ((EmitSignedSaturatedDoublingMultiplyReturnHigh16 a b).1 % 2 ^ 16)
        = satClampS 16 (2 * (toSInt 16 (a % 2 ^ 16) * toSInt 16 (b % 2 ^ 16)) / 2 ^ 16)
      ∧ ((EmitSignedSaturatedDoublingMultiplyReturnHigh16 a b).2 = true
        ↔ satClampS 16 (2 * (toSInt 16 (a % 2 ^ 16) * toSInt 16 (b % 2 ^ 16)) / 2 ^ 16)
            ≠ 2 * (toSInt 16 (a % 2 ^ 16) * toSInt 16 (b % 2 ^ 16)) / 2 ^ 16))
    ∧ (toSInt 32 (EmitSignedSaturatedDoublingMultiplyReturnHigh32 a b).1
        = satClampS 32 (2 * (toSInt 32 (a % 2 ^ 32) * toSInt 32 (b % 2 ^ 32)) / 2 ^ 32)
      ∧ ((EmitSignedSaturatedDoublingMultiplyReturnHigh32 a b).2 = true
        ↔ satClampS 32 (2 * (toSInt 32 (a % 2 ^ 32) * toSInt 32 (b % 2 ^ 32)) / 2 ^ 32)
            ≠ 2 * (toSInt 32 (a % 2 ^ 32) * toSInt 32 (b % 2 ^ 32)) / 2 ^ 32)) :=
  ⟨dmulh16_spec a b, dmulh32_spec a b⟩

/-- Counterexample to C2 as stated: at `x = y = 0x4000` (both 16384), the
code returns `(2·16384·16384) >> 16 = 8192`, while the claim's formula
`sat((2·x·y) >> (2·width − 1))` gives `2^29 >> 31 = 0`. -/
theorem claim_C2_doubling_multiply_high_counterexample :
    toSInt 16 ((EmitSignedSaturatedDoublingMultiplyReturnHigh16 0x4000 0x4000).1 % 2 ^ 16)
        = 8192
      ∧ dmulhSpecFormula 16 (toSInt 16 (0x4000 % 2 ^ 16)) (toSInt 16 (0x4000 % 2 ^ 16)) = 0
      ∧ (8192 : Int) ≠ 0 :=
  ⟨by decide, by decide, by decide⟩

end Dynarmic
